import Mathlib

/-!
Verification development for the Paperly backend (a JavaScript/Express
service that aggregates academic-paper metadata, normalizes it, ranks it,
caches it per topic, and serves content-based related-paper queries).

The definitions below are a shallow embedding of the backend source
(`server.js`).  JavaScript strings are modelled as Lean `String` /
`List Char`; JavaScript numbers appearing as integer counters are
modelled as `Nat` or `Int`; the floating-point trending score
(`Math.log`) is modelled over `Real`; fallible provider calls are
modelled as `Except` values.  The process clock
(`new Date().getFullYear()`) is passed explicitly as a `currentYear`
parameter.  The in-memory server state (the `cachedPapers` corpus slot
and the `topicCache` object) is modelled by an explicit `ServerState`
record threaded through the route functions.
-/

namespace Paperly

/-- Lowercase a string into its character list, modelling the JavaScript
`String.prototype.toLowerCase` call on the ASCII data handled here. -/
def lowerStr (s : String) : List Char := s.toList.map Char.toLower

/-- Decide whether a character list starts with the given pattern,
used to implement substring containment. -/
def leadsWith : List Char → List Char → Bool
  | [], _ => true
  | _ :: _, [] => false
  | a :: as, b :: bs => a == b && leadsWith as bs

/-- Contiguous-substring containment, modelling the JavaScript
`String.prototype.includes` call: `strIncludes needle hay` is true when
`needle` occurs contiguously inside `hay`. -/
def strIncludes (needle : List Char) : List Char → Bool
  | [] => leadsWith needle []
  | c :: t => leadsWith needle (c :: t) || strIncludes needle t

/-- Uppercase the first character of a character list, modelling
`s.charAt(0).toUpperCase() + s.slice(1)`. -/
def capFirst : List Char → List Char
  | [] => []
  | c :: cs => Char.toUpper c :: cs

/-- Shallow embedding of `normalizeSource` from the backend.  The input
is `none` for a missing (`undefined`) argument and `some s` for a string
argument; `!source` in JavaScript is true exactly for a missing or empty
string here.  The function lowercases the input, matches the six known
provider keys as substrings in the order written in the source, and
otherwise capitalizes the first character of the lowercased string. -/
def normalizeSource : Option String → String
  | none => "Unknown"
  | some source =>
    if source = "" then "Unknown"
    else
      let s := lowerStr source
      if strIncludes "arxiv".toList s then "arXiv"
      else if strIncludes "openalex".toList s then "OpenAlex"
      else if strIncludes "ieee".toList s then "IEEE"
      else if strIncludes "springer".toList s then "Springer"
      else if strIncludes "elsevier".toList s then "Elsevier"
      else if strIncludes "acm".toList s then "ACM"
      else (capFirst s).asString

/-- Canonical Paper record produced by the source adapters.  Field names
follow the JavaScript object shape; `year = 0` and `citations = 0` are
the sentinels for unknown values. -/
structure Paper where
  title : String
  summary : String
  link : String
  authors : List String
  source : String
  year : Int
  citations : Nat
  tags : List String
deriving DecidableEq, Repr

/-- Shallow embedding of `assignBadges`: pushes, in source order,
"Highly Cited" when `citations >= 50`, "Open Access" when the source
text contains "arxiv" case-insensitively, and "New" when
`year >= currentYear - 1`. -/
def assignBadges (currentYear : Int) (p : Paper) : List String :=
  (if 50 ≤ p.citations then ["Highly Cited"] else [])
    ++ (if strIncludes "arxiv".toList (lowerStr p.source) then ["Open Access"] else [])
    ++ (if currentYear - 1 ≤ p.year then ["New"] else [])

/-- The per-paper enrichment step of the `/papers` route:
`{ ...p, tags: assignBadges(p) }`, overwriting any provider tags. -/
def enrich (currentYear : Int) (p : Paper) : Paper :=
  { p with tags := assignBadges currentYear p }

section SortDesc

variable {α : Type} {β : Type} [LinearOrder β]

/-- One insertion step of a stable descending sort keyed by `k`.  The
element `x` is placed in front of the first element whose key is at most
the key of `x`; with `foldr` below this computes exactly the result of
the stable JavaScript `Array.prototype.sort` under the numeric
comparator `(a, b) => k(b) - k(a)`. -/
def insDesc (k : α → β) (x : α) : List α → List α
  | [] => [x]
  | y :: ys => if k y ≤ k x then x :: y :: ys else y :: insDesc k x ys

/-- Stable descending sort by the key `k`, the model of
`.sort((a, b) => k(b) - k(a))` in the backend. -/
def sortDesc (k : α → β) (l : List α) : List α := l.foldr (insDesc k) []

theorem insDesc_perm (k : α → β) (x : α) (l : List α) :
    (insDesc k x l).Perm (x :: l) := by
  induction l with
  | nil => exact List.Perm.refl _
  | cons y ys ih =>
    by_cases h : k y ≤ k x
    · simp [insDesc, h]
    · simp only [insDesc, h, if_neg, ite_false]
      exact (ih.cons y).trans (List.Perm.swap x y ys)

theorem sortDesc_perm (k : α → β) (l : List α) : (sortDesc k l).Perm l := by
  induction l with
  | nil => exact List.Perm.refl _
  | cons x xs ih =>
    exact (insDesc_perm k x (sortDesc k xs)).trans (ih.cons x)

theorem mem_insDesc (k : α → β) (x a : α) (l : List α) :
    a ∈ insDesc k x l ↔ a = x ∨ a ∈ l := by
  rw [(insDesc_perm k x l).mem_iff, List.mem_cons]

theorem mem_sortDesc (k : α → β) (a : α) (l : List α) :
    a ∈ sortDesc k l ↔ a ∈ l :=
  (sortDesc_perm k l).mem_iff

theorem insDesc_pairwise (k : α → β) (x : α) (l : List α)
    (h : l.Pairwise (fun a b => k b ≤ k a)) :
    (insDesc k x l).Pairwise (fun a b => k b ≤ k a) := by
  induction l with
  | nil => simp [insDesc]
  | cons y ys ih =>
    rcases List.pairwise_cons.mp h with ⟨hy, hys⟩
    by_cases hle : k y ≤ k x
    · simp only [insDesc, hle, if_true, ite_true]
      refine List.pairwise_cons.mpr ⟨?_, h⟩
      intro z hz
      rcases List.mem_cons.mp hz with rfl | hz
      · exact hle
      · exact (hy z hz).trans hle
    · simp only [insDesc, hle, ite_false]
      refine List.pairwise_cons.mpr ⟨?_, ih hys⟩
      intro z hz
      rcases (mem_insDesc k x z ys).mp hz with rfl | hz
      · exact le_of_not_le hle
      · exact hy z hz

theorem sortDesc_sorted (k : α → β) (l : List α) :
    (sortDesc k l).Pairwise (fun a b => k b ≤ k a) := by
  induction l with
  | nil => simp [sortDesc]
  | cons x xs ih => exact insDesc_pairwise k x (sortDesc k xs) ih

/-- Stability of the insertion step: inserting an element whose tag `t`
is smaller than every tag in the list preserves the lexicographic
ordering (key strictly descending, tag ascending on key ties). -/
theorem insDesc_stable (k : α → β) (t : α → Nat) (x : α) (l : List α)
    (hl : l.Pairwise (fun a b => k b < k a ∨ (k a = k b ∧ t a < t b)))
    (hx : ∀ y ∈ l, t x < t y) :
    (insDesc k x l).Pairwise (fun a b => k b < k a ∨ (k a = k b ∧ t a < t b)) := by
  induction l with
  | nil => simp [insDesc]
  | cons y ys ih =>
    rcases List.pairwise_cons.mp hl with ⟨hy, hys⟩
    by_cases hle : k y ≤ k x
    · simp only [insDesc, hle, if_true, ite_true]
      refine List.pairwise_cons.mpr ⟨?_, hl⟩
      intro z hz
      rcases List.mem_cons.mp hz with rfl | hz
      · rcases lt_or_eq_of_le hle with hlt | heq
        · exact Or.inl hlt
        · exact Or.inr ⟨heq.symm, hx z (List.mem_cons_self z ys)⟩
      · have hzy : k z ≤ k y := by
          rcases hy z hz with hlt | ⟨heq, _⟩
          · exact le_of_lt hlt
          · exact le_of_eq heq.symm
        rcases lt_or_eq_of_le (hzy.trans hle) with hlt | heq
        · exact Or.inl hlt
        · exact Or.inr ⟨heq.symm, hx z (List.mem_cons_of_mem y hz)⟩
    · simp only [insDesc, hle, ite_false]
      refine List.pairwise_cons.mpr ⟨?_, ?_⟩
      · intro z hz
        rcases (mem_insDesc k x z ys).mp hz with rfl | hz
        · exact Or.inl (lt_of_not_le hle)
        · exact hy z hz
      · exact ih hys (fun z hz => hx z (List.mem_cons_of_mem y hz))

/-- Stability of the sort: on an input whose tags are strictly
increasing (the corpus positions), the stable descending sort produces a
list ordered by key strictly descending with key ties broken by
ascending tag. -/
theorem sortDesc_stable (k : α → β) (t : α → Nat) (l : List α)
    (h : l.Pairwise (fun a b => t a < t b)) :
    (sortDesc k l).Pairwise (fun a b => k b < k a ∨ (k a = k b ∧ t a < t b)) := by
  induction l with
  | nil => simp [sortDesc]
  | cons x xs ih =>
    rcases List.pairwise_cons.mp h with ⟨hx, hxs⟩
    refine insDesc_stable k t x (sortDesc k xs) (ih hxs) ?_
    intro y hy
    exact hx y ((mem_sortDesc k y xs).mp hy)

end SortDesc

/-! Similarity engine (the `/related` route).  The TF-IDF computation
itself is performed by the external `natural` library in the backend, so
the pipeline below is parametric in the score function
`sc : Nat → Rat`, standing for `tfidf.tfidf(clickedText, i)` evaluated
against document `i` of the corpus.  An entry additionally records the
corpus position `idx` of its paper (the array index that is implicit in
the JavaScript `map((p, i) => ...)` callback). -/

/-- One element of the `scores` array of the `/related` route: the paper,
its corpus position, and its similarity score against the clicked
document. -/
structure ScoredEntry where
  paper : Paper
  idx : Nat
  score : Rat
deriving DecidableEq, Repr

/-- The `scores` array: every corpus entry is scored by `sc`, except the
clicked position `index`, whose score is forced to the sentinel `-1`. -/
def relatedScores (corpus : List Paper) (index : Nat) (sc : Nat → Rat) :
    List ScoredEntry :=
  corpus.enum.map (fun ip =>
    if ip.1 = index then ⟨ip.2, ip.1, -1⟩ else ⟨ip.2, ip.1, sc ip.1⟩)

/-- The `relatedPapers` pipeline before the final projection to papers:
keep strictly positive scores, stable-sort descending by score, truncate
to the first five entries. -/
def relatedEntries (corpus : List Paper) (index : Nat) (sc : Nat → Rat) :
    List ScoredEntry :=
  (sortDesc ScoredEntry.score
    ((relatedScores corpus index sc).filter (fun s => decide (0 < s.score)))).take 5

/-- Error surfaced by the `/related` route: the structured 404 response. -/
inductive RelatedError where
  | notFound
deriving DecidableEq, Repr

/-- Shallow embedding of the `/related` route.  The query parameter is
`none` when `parseInt` produced `NaN`, otherwise the parsed integer.
`!cachedPapers[index]` in the source is true exactly when the index is
out of the corpus bounds (papers are objects and hence truthy), producing
the 404 response; otherwise the route answers with the clicked paper and
the projected related entries. -/
def relatedHandler (corpus : List Paper) (index : Option Int) (sc : Nat → Rat) :
    Except RelatedError (Paper × List Paper) :=
  match index with
  | none => .error .notFound
  | some i =>
    if h : 0 ≤ i ∧ i.toNat < corpus.length then
      .ok (corpus.get ⟨i.toNat, h.2⟩,
        (relatedEntries corpus i.toNat sc).map ScoredEntry.paper)
    else .error .notFound

/-! Trending ranker.  The score is
`Math.log(citations + 1) + (year ? (currentYear - year) * -0.5 : 0)`:
note the JavaScript truthiness test on `year`, which applies the recency
term to every nonzero year. -/

/-- Shallow embedding of the per-paper trending score of the `/papers`
route, over the reals (`Math.log` is the natural logarithm). -/
noncomputable def trendScore (currentYear : Int) (p : Paper) : ℝ :=
  Real.log ((p.citations : ℝ) + 1) +
    (if p.year = 0 then 0 else ((currentYear : ℝ) - (p.year : ℝ)) * (-0.5))

/-- Interpretation of the trending-score formula exactly as the
specification words it, with the recency guard written `year > 0`;
stated only to be compared against `trendScore` above. -/
noncomputable def specTrendScore (currentYear : Int) (p : Paper) : ℝ :=
  Real.log ((p.citations : ℝ) + 1) +
    (if 0 < p.year then ((currentYear : ℝ) - (p.year : ℝ)) * (-0.5) else 0)

/-- The trending sort of the `/papers` route: stable descending sort by
`trendScore`. -/
noncomputable def trendRank (currentYear : Int) : List Paper → List Paper :=
  sortDesc (trendScore currentYear)

/-! Aggregator and server state. -/

/-- Outcome of the four provider fetches for one topic.  An `Except.error`
value stands for a rejected promise (transport error, malformed payload,
or missing credential); `Except.ok` carries the mapped papers. -/
structure AdapterResults where
  openAlex : Except String (List Paper)
  arxiv : Except String (List Paper)
  semScholar : Except String (List Paper)
  springer : Except String (List Paper)

/-- Shallow embedding of `safeFetch` (and of the equivalent internal
try/catch of `fetchSpringer`): an error degrades to the empty list. -/
def safeFetch : Except String (List Paper) → List Paper
  | .ok l => l
  | .error _ => []

/-- Concatenation of the four adapter contributions in the fixed priority
order of the source (`openAlexPapers, arxivPapers, semPapers,
springerPapers`). -/
def aggregate (r : AdapterResults) : List Paper :=
  safeFetch r.openAlex ++ safeFetch r.arxiv ++ safeFetch r.semScholar
    ++ safeFetch r.springer

/-- The mutable module-level state of the server: the last-corpus slot
`cachedPapers` and the topic-keyed cache `topicCache`. -/
structure ServerState where
  cachedPapers : List Paper
  topicCache : String → Option (List Paper)

/-- Result of one `/papers` request: the JSON response body, the state
after the request, and whether the provider adapters were invoked. -/
structure RouteOut where
  response : List Paper
  state : ServerState
  invokedAdapters : Bool

/-- The list produced by a cache-miss `/papers` request: aggregation,
badge enrichment, then the in-place trending sort.  Because the
JavaScript sort mutates the very array that was just assigned to
`cachedPapers` and to `topicCache[topic]`, this ranked list is also the
value observable in both state slots after the request. -/
noncomputable def rankedPapers (currentYear : Int) (r : AdapterResults) :
    List Paper :=
  trendRank currentYear ((aggregate r).map (enrich currentYear))

/-- Shallow embedding of the `/papers` route.  On a cache hit the cached
array is returned unchanged and no adapter runs; on a miss the adapters
run, the enriched list is stored in both state slots and sorted in place,
and the sorted array is returned. -/
noncomputable def papersRoute (st : ServerState) (topic : String)
    (fetch : String → AdapterResults) (currentYear : Int) : RouteOut :=
  match st.topicCache topic with
  | some cached => ⟨cached, st, false⟩
  | none =>
    ⟨rankedPapers currentYear (fetch topic),
     ⟨rankedPapers currentYear (fetch topic),
      fun t => if t = topic then some (rankedPapers currentYear (fetch topic))
               else st.topicCache t⟩,
     true⟩

/-! Request bounds of the four active source adapters. -/

/-- The request issued by one adapter: endpoint, topic, and the
result-count bound sent to the provider, when the adapter sends one. -/
structure ApiRequest where
  url : String
  topic : String
  resultCount : Option Nat
deriving DecidableEq, Repr

/-- OpenAlex request: `per_page=5` in the query string. -/
def openAlexRequest (topic : String) : ApiRequest :=
  ⟨"https://api.openalex.org/works", topic, some 5⟩

/-- arXiv request: `max_results=5` in the query string. -/
def arxivRequest (topic : String) : ApiRequest :=
  ⟨"http://export.arxiv.org/api/query", topic, some 5⟩

/-- Semantic Scholar request: `limit=5` in the query string. -/
def semScholarRequest (topic : String) : ApiRequest :=
  ⟨"https://api.semanticscholar.org/graph/v1/paper/search", topic, some 5⟩

/-- Springer request: the params object carries only `api_key` and `q`,
with no result-count bound. -/
def springerRequest (topic : String) : ApiRequest :=
  ⟨"https://api.springernature.com/openaccess/json", topic, none⟩

/-- One record of the Springer JSON payload, restricted to the fields the
adapter reads; `none` models a missing field (optional chaining in the
source). -/
structure SpringerRecord where
  title : Option String
  abstractText : Option String
  creators : Option (List String)
  publisher : Option String
  firstUrl : Option String
  onlineDateYear : Option Int
  subjects : Option (List String)
deriving DecidableEq, Repr

/-- The per-record mapping of `fetchSpringer`, with the fallback literals
of the source. -/
def springerMapRecord (r : SpringerRecord) : Paper :=
  { title := r.title.getD "No title"
    summary := r.abstractText.getD "No abstract provided"
    authors := r.creators.getD []
    source := r.publisher.getD "Springer"
    link := r.firstUrl.getD "#"
    citations := 0
    year := r.onlineDateYear.getD 0
    tags := r.subjects.getD [] }

/-- The whole-batch mapping of `fetchSpringer`: every record of the
response becomes one paper, with no truncation. -/
def springerMapRecords (records : List SpringerRecord) : List Paper :=
  records.map springerMapRecord

/-! Helper lemmas about the similarity pipeline. -/

theorem enumFrom_fst_pairwise (n : Nat) (l : List α) :
    (l.enumFrom n).Pairwise (fun a b => a.1 < b.1) := by
  induction l generalizing n with
  | nil => simp
  | cons a l ih =>
    refine List.pairwise_cons.mpr ⟨?_, ih (n + 1)⟩
    intro x hx
    obtain ⟨i, b⟩ := x
    have hle := (List.mk_mem_enumFrom_iff_le_and_getElem?_sub.mp hx).1
    simpa using by omega

theorem enum_fst_pairwise (l : List α) :
    l.enum.Pairwise (fun a b => a.1 < b.1) :=
  enumFrom_fst_pairwise 0 l

theorem mem_relatedScores (corpus : List Paper) (index : Nat) (sc : Nat → Rat)
    (e : ScoredEntry) (he : e ∈ relatedScores corpus index sc) :
    corpus[e.idx]? = some e.paper
      ∧ e.score = (if e.idx = index then -1 else sc e.idx) := by
  rcases List.mem_map.mp he with ⟨ip, hip, rfl⟩
  have hget := List.mem_enum_iff_getElem?.mp hip
  by_cases h : ip.1 = index
  · subst h
    simp [hget]
  · simp [h, hget]

theorem relatedScores_idx_pairwise (corpus : List Paper) (index : Nat)
    (sc : Nat → Rat) :
    (relatedScores corpus index sc).Pairwise (fun a b => a.idx < b.idx) := by
  have hidx : ∀ ip : Nat × Paper,
      (if ip.1 = index then (⟨ip.2, ip.1, -1⟩ : ScoredEntry)
       else ⟨ip.2, ip.1, sc ip.1⟩).idx = ip.1 := by
    intro ip
    by_cases h : ip.1 = index <;> simp [h]
  refine List.pairwise_map.mpr ((enum_fst_pairwise corpus).imp ?_)
  intro a b hab
  simp only [hidx]
  exact hab

/-! Claim theorems. -/

/-- C3: `normalizeSource` matches the six provider keys as
case-insensitive substrings, tried in the fixed order of the source
table; an empty or missing input yields "Unknown", and an unmatched
input falls back to the lowercased raw string with its first character
capitalized.  The concrete cases of the claim are included. -/
theorem normalizeSource_table :
    normalizeSource none = "Unknown"
  ∧ normalizeSource (some "") = "Unknown"
  ∧ normalizeSource (some "IEEE Transactions") = "IEEE"
  ∧ normalizeSource (some "randomjournal") = "Randomjournal"
  ∧ (∀ s t : String, lowerStr s = lowerStr t →
       normalizeSource (some s) = normalizeSource (some t))
  ∧ (∀ s : String, strIncludes "arxiv".toList (lowerStr s) = true →
       normalizeSource (some s) = "arXiv")
  ∧ (∀ s : String, strIncludes "arxiv".toList (lowerStr s) = false →
       strIncludes "openalex".toList (lowerStr s) = true →
       normalizeSource (some s) = "OpenAlex")
  ∧ (∀ s : String, strIncludes "arxiv".toList (lowerStr s) = false →
       strIncludes "openalex".toList (lowerStr s) = false →
       strIncludes "ieee".toList (lowerStr s) = true →
       normalizeSource (some s) = "IEEE")
  ∧ (∀ s : String, strIncludes "arxiv".toList (lowerStr s) = false →
       strIncludes "openalex".toList (lowerStr s) = false →
       strIncludes "ieee".toList (lowerStr s) = false →
       strIncludes "springer".toList (lowerStr s) = true →
       normalizeSource (some s) = "Springer")
  ∧ (∀ s : String, strIncludes "arxiv".toList (lowerStr s) = false →
       strIncludes "openalex".toList (lowerStr s) = false →
       strIncludes "ieee".toList (lowerStr s) = false →
       strIncludes "springer".toList (lowerStr s) = false →
       strIncludes "elsevier".toList (lowerStr s) = true →
       normalizeSource (some s) = "Elsevier")
  ∧ (∀ s : String, strIncludes "arxiv".toList (lowerStr s) = false →
       strIncludes "openalex".toList (lowerStr s) = false →
       strIncludes "ieee".toList (lowerStr s) = false →
       strIncludes "springer".toList (lowerStr s) = false →
       strIncludes "elsevier".toList (lowerStr s) = false →
       strIncludes "acm".toList (lowerStr s) = true →
       normalizeSource (some s) = "ACM")
  ∧ (∀ s : String, s ≠ "" →
       strIncludes "arxiv".toList (lowerStr s) = false →
       strIncludes "openalex".toList (lowerStr s) = false →
       strIncludes "ieee".toList (lowerStr s) = false →
       strIncludes "springer".toList (lowerStr s) = false →
       strIncludes "elsevier".toList (lowerStr s) = false →
       strIncludes "acm".toList (lowerStr s) = false →
       normalizeSource (some s) = (capFirst (lowerStr s)).asString) := by
  have hempty : ∀ s : String, s = "" → lowerStr s = [] := by
    intro s hs
    subst hs
    rfl
  have hne : ∀ s : String, strIncludes "arxiv".toList (lowerStr s) = true ∨
      strIncludes "openalex".toList (lowerStr s) = true ∨
      strIncludes "ieee".toList (lowerStr s) = true ∨
      strIncludes "springer".toList (lowerStr s) = true ∨
      strIncludes "elsevier".toList (lowerStr s) = true ∨
      strIncludes "acm".toList (lowerStr s) = true → s ≠ "" := by
    intro s hs hs0
    rw [hempty s hs0] at hs
    revert hs
    decide
  have nb : ∀ b : Bool, b = false → ¬(b = true) := by decide
  refine ⟨by decide, by decide, by decide, by decide, ?_, ?_, ?_, ?_, ?_, ?_, ?_, ?_⟩
  · intro s t hst
    by_cases hs : s = ""
    · have ht : t = "" := by
        by_contra ht
        have h1 : lowerStr t = [] := by rw [← hst, hempty s hs]
        exact ht (by
          cases t with
          | mk data =>
            cases data with
            | nil => rfl
            | cons c cs => simp [lowerStr, String.toList] at h1)
      rw [hs, ht]
    · have ht : t ≠ "" := by
        intro ht
        have h1 : lowerStr s = [] := by rw [hst, hempty t ht]
        exact hs (by
          cases s with
          | mk data =>
            cases data with
            | nil => rfl
            | cons c cs => simp [lowerStr, String.toList] at h1)
      simp only [normalizeSource, hs, ht, if_neg, hst]
  · intro s h1
    have hs := hne s (Or.inl h1)
    simp only [normalizeSource, if_neg hs, if_pos h1]
  · intro s h1 h2
    have hs := hne s (Or.inr (Or.inl h2))
    simp only [normalizeSource, if_neg hs, if_neg (nb _ h1), if_pos h2]
  · intro s h1 h2 h3
    have hs := hne s (Or.inr (Or.inr (Or.inl h3)))
    simp only [normalizeSource, if_neg hs, if_neg (nb _ h1), if_neg (nb _ h2),
      if_pos h3]
  · intro s h1 h2 h3 h4
    have hs := hne s (Or.inr (Or.inr (Or.inr (Or.inl h4))))
    simp only [normalizeSource, if_neg hs, if_neg (nb _ h1), if_neg (nb _ h2),
      if_neg (nb _ h3), if_pos h4]
  · intro s h1 h2 h3 h4 h5
    have hs := hne s (Or.inr (Or.inr (Or.inr (Or.inr (Or.inl h5)))))
    simp only [normalizeSource, if_neg hs, if_neg (nb _ h1), if_neg (nb _ h2),
      if_neg (nb _ h3), if_neg (nb _ h4), if_pos h5]
  · intro s h1 h2 h3 h4 h5 h6
    have hs := hne s (Or.inr (Or.inr (Or.inr (Or.inr (Or.inr h6)))))
    simp only [normalizeSource, if_neg hs, if_neg (nb _ h1), if_neg (nb _ h2),
      if_neg (nb _ h3), if_neg (nb _ h4), if_neg (nb _ h5), if_pos h6]
  · intro s hs h1 h2 h3 h4 h5 h6
    simp only [normalizeSource, if_neg hs, if_neg (nb _ h1), if_neg (nb _ h2),
      if_neg (nb _ h3), if_neg (nb _ h4), if_neg (nb _ h5), if_neg (nb _ h6)]

/-- Witness for `normalizeSource_table` at concrete inputs: a matched
key inside a longer venue name and an unmatched fallback input. -/
theorem normalizeSource_table_witness :
    normalizeSource (some "the IEEE digital library") = "IEEE"
  ∧ normalizeSource (some "weird venue") = "Weird venue" := by
  have h := normalizeSource_table
  refine ⟨h.2.2.2.2.2.2.2.1 "the IEEE digital library"
    (by decide) (by decide) (by decide), ?_⟩
  have hf := h.2.2.2.2.2.2.2.2.2.2.2 "weird venue" (by decide)
    (by decide) (by decide) (by decide) (by decide) (by decide) (by decide)
  rw [hf]
  decide

/-- C4: `assignBadges` yields "Highly Cited" iff `citations >= 50`,
"Open Access" iff the source text contains "arxiv" case-insensitively,
and "New" iff `year >= currentYear - 1`; the enrichment step overwrites
any provider tags with exactly this badge list, and the concrete paper
of the claim receives exactly the three badges. -/
theorem assignBadges_spec (y : Int) (p : Paper) :
    ("Highly Cited" ∈ assignBadges y p ↔ 50 ≤ p.citations)
  ∧ ("Open Access" ∈ assignBadges y p ↔
       strIncludes "arxiv".toList (lowerStr p.source) = true)
  ∧ ("New" ∈ assignBadges y p ↔ y - 1 ≤ p.year)
  ∧ (enrich y p).tags = assignBadges y p
  ∧ assignBadges y ⟨"t", "s", "#", [], "arXiv", y, 50, ["provider tag"]⟩
      = ["Highly Cited", "Open Access", "New"] := by
  have harx : strIncludes "arxiv".toList (lowerStr "arXiv") = true := by decide
  refine ⟨?_, ?_, ?_, rfl, ?_⟩
  · by_cases h1 : 50 ≤ p.citations <;>
      by_cases h2 : strIncludes "arxiv".toList (lowerStr p.source) = true <;>
      by_cases h3 : y - 1 ≤ p.year <;>
      simp [assignBadges, h1, h2, h3]
  · by_cases h1 : 50 ≤ p.citations <;>
      by_cases h2 : strIncludes "arxiv".toList (lowerStr p.source) = true <;>
      by_cases h3 : y - 1 ≤ p.year <;>
      simp [assignBadges, h1, h2, h3]
  · by_cases h1 : 50 ≤ p.citations <;>
      by_cases h2 : strIncludes "arxiv".toList (lowerStr p.source) = true <;>
      by_cases h3 : y - 1 ≤ p.year <;>
      simp [assignBadges, h1, h2, h3]
  · simp [assignBadges, show y - 1 ≤ y by omega,
      show strIncludes ['a', 'r', 'x', 'i', 'v'] (lowerStr "arXiv") = true from by decide]

/-- C9, counterexample: the Springer adapter sends no result-count bound
in its request, and maps a six-record response to six papers, so it is
not bounded by five. -/
theorem springer_no_bound_cex :
    (springerRequest "ai").resultCount ≠ some 5
  ∧ (springerMapRecords
      (List.replicate 6 ⟨none, none, none, none, none, none, none⟩)).length = 6
  ∧ ¬((springerMapRecords
      (List.replicate 6 ⟨none, none, none, none, none, none, none⟩)).length ≤ 5) := by
  refine ⟨by decide, ?_, ?_⟩ <;> decide

/-- C9, amended: the OpenAlex, arXiv and Semantic Scholar adapters bound
their requests to five results; the Springer adapter sends no
result-count bound and maps every record of the response to one paper,
so its contribution equals the size of the provider response. -/
theorem adapter_request_bounds (topic : String) :
    (openAlexRequest topic).resultCount = some 5
  ∧ (arxivRequest topic).resultCount = some 5
  ∧ (semScholarRequest topic).resultCount = some 5
  ∧ (springerRequest topic).resultCount = none
  ∧ (∀ rs : List SpringerRecord, (springerMapRecords rs).length = rs.length) :=
  ⟨rfl, rfl, rfl, rfl, fun rs => by simp [springerMapRecords]⟩

/-- C5: the aggregator absorbs adapter failures.  When every adapter
fails the aggregation is the empty list rather than an error; a failing
adapter contributes exactly what an empty success would contribute,
leaving the other three contributions unchanged; and every adapter
contribution embeds into the aggregated list whatever the other
adapters returned. -/
theorem aggregate_absorbs_failures :
    (∀ e1 e2 e3 e4 : String,
       aggregate ⟨.error e1, .error e2, .error e3, .error e4⟩ = [])
  ∧ (∀ o1 o2 o3 o4 : Except String (List Paper), ∀ e : String,
       aggregate ⟨.error e, o2, o3, o4⟩ = aggregate ⟨.ok [], o2, o3, o4⟩
     ∧ aggregate ⟨o1, .error e, o3, o4⟩ = aggregate ⟨o1, .ok [], o3, o4⟩
     ∧ aggregate ⟨o1, o2, .error e, o4⟩ = aggregate ⟨o1, o2, .ok [], o4⟩
     ∧ aggregate ⟨o1, o2, o3, .error e⟩ = aggregate ⟨o1, o2, o3, .ok []⟩)
  ∧ (∀ o1 o2 o3 o4 : Except String (List Paper),
       List.Sublist (safeFetch o1) (aggregate ⟨o1, o2, o3, o4⟩)
     ∧ List.Sublist (safeFetch o2) (aggregate ⟨o1, o2, o3, o4⟩)
     ∧ List.Sublist (safeFetch o3) (aggregate ⟨o1, o2, o3, o4⟩)
     ∧ List.Sublist (safeFetch o4) (aggregate ⟨o1, o2, o3, o4⟩)) := by
  refine ⟨fun _ _ _ _ => rfl, fun o1 o2 o3 o4 e => ⟨rfl, rfl, rfl, rfl⟩, ?_⟩
  intro o1 o2 o3 o4
  refine ⟨?_, ?_, ?_, ?_⟩
  · exact ((List.sublist_append_left _ _).trans
      (List.sublist_append_left _ _)).trans (List.sublist_append_left _ _)
  · exact ((List.sublist_append_right _ _).trans
      (List.sublist_append_left _ _)).trans (List.sublist_append_left _ _)
  · exact (List.sublist_append_right _ _).trans (List.sublist_append_left _ _)
  · exact List.sublist_append_right _ _

/-- C7: after any `/papers` request for a topic, a second request for
the same topic is answered from the topic cache: it returns exactly the
response of the first request, leaves the state unchanged, and invokes
no adapter, regardless of the provider responses and clock of the second
request. -/
theorem topicCache_idempotent (st : ServerState) (topic : String)
    (fetch fetch' : String → AdapterResults) (y y' : Int) :
    papersRoute ((papersRoute st topic fetch y).state) topic fetch' y' =
      ⟨(papersRoute st topic fetch y).response,
       (papersRoute st topic fetch y).state, false⟩ := by
  cases h : st.topicCache topic with
  | some cached => simp [papersRoute, h]
  | none => simp [papersRoute, h]

/-- C8, amended: after a cache-miss `/papers` request, the topic cache
entry, the corpus slot and the response all hold the same ranked list
`rankedPapers` (the in-place sort of the source mutates the very array
stored in both slots), not the pre-ranking aggregation-order list. -/
theorem cache_stores_ranked (st : ServerState) (topic : String)
    (fetch : String → AdapterResults) (y : Int)
    (hmiss : st.topicCache topic = none) :
    (papersRoute st topic fetch y).state.topicCache topic =
        some (rankedPapers y (fetch topic))
  ∧ (papersRoute st topic fetch y).state.cachedPapers =
        rankedPapers y (fetch topic)
  ∧ (papersRoute st topic fetch y).response = rankedPapers y (fetch topic) := by
  simp [papersRoute, hmiss]

/-- Witness for `cache_stores_ranked`: an initial empty state and a
total provider failure. -/
theorem cache_stores_ranked_witness :
    (papersRoute ⟨[], fun _ => none⟩ "ai"
      (fun _ => ⟨.error "e", .error "e", .error "e", .error "e"⟩) 2025).state.topicCache "ai" =
        some (rankedPapers 2025 ⟨.error "e", .error "e", .error "e", .error "e"⟩)
  ∧ (papersRoute ⟨[], fun _ => none⟩ "ai"
      (fun _ => ⟨.error "e", .error "e", .error "e", .error "e"⟩) 2025).state.cachedPapers =
        rankedPapers 2025 ⟨.error "e", .error "e", .error "e", .error "e"⟩ := by
  have h := cache_stores_ranked ⟨[], fun _ => none⟩ "ai"
    (fun _ => ⟨.error "e", .error "e", .error "e", .error "e"⟩) 2025 rfl
  exact ⟨h.1, h.2.1⟩

/-- A paper whose trending score at clock 2025 is `-1` (year 2023 and no
citations), listed before a better-scoring paper in the aggregation
order of `fetchLowHigh`. -/
def pLow : Paper := ⟨"older paper", "text a", "#", [], "X", 2023, 0, []⟩

/-- A paper whose trending score is `0` (unknown year, no citations). -/
def pHigh : Paper := ⟨"undated paper", "text b", "#", [], "X", 0, 0, []⟩

/-- Provider outcomes delivering `pLow` before `pHigh` through the
OpenAlex slot and failing the other three adapters. -/
def fetchLowHigh : String → AdapterResults :=
  fun _ => ⟨.ok [pLow, pHigh], .error "e", .error "e", .error "e"⟩

/-- C8, counterexample: for this concrete request the aggregation order
is `[pLow, pHigh]`, but the topic cache entry and the corpus slot both
hold the ranked list `[pHigh, pLow]`, which differs from the
aggregation-order list the claim asserts they hold. -/
theorem cache_not_unranked_cex :
    (aggregate (fetchLowHigh "t")).map (enrich 2025) = [pLow, pHigh]
  ∧ (papersRoute ⟨[], fun _ => none⟩ "t" fetchLowHigh 2025).state.topicCache "t" =
      some [pHigh, pLow]
  ∧ (papersRoute ⟨[], fun _ => none⟩ "t" fetchLowHigh 2025).state.cachedPapers =
      [pHigh, pLow]
  ∧ ([pHigh, pLow] : List Paper) ≠ [pLow, pHigh] := by
  have hagg : (aggregate (fetchLowHigh "t")).map (enrich 2025) = [pLow, pHigh] := by
    decide
  have hsL : trendScore 2025 pLow = -1 := by
    simp only [trendScore, pLow]
    norm_num [Real.log_one]
  have hsH : trendScore 2025 pHigh = 0 := by
    simp only [trendScore, pHigh]
    norm_num [Real.log_one]
  have hrank : rankedPapers 2025 (fetchLowHigh "t") = [pHigh, pLow] := by
    rw [rankedPapers, hagg]
    simp only [trendRank, sortDesc, List.foldr_cons, List.foldr_nil, insDesc,
      hsL, hsH]
    norm_num
  refine ⟨hagg, ?_, ?_, by decide⟩ <;> simp [papersRoute, hrank]

/-- C10: a total-provider-failure aggregation is cached as the empty
list: the response is empty, the topic cache maps the topic to the empty
list, any later request for the same topic while that entry is present
is served the empty list without invoking adapters, and requests for
other topics never change this entry. -/
theorem empty_aggregation_cached (st : ServerState) (topic : String)
    (fetch : String → AdapterResults) (y : Int)
    (hmiss : st.topicCache topic = none)
    (hempty : aggregate (fetch topic) = []) :
    (papersRoute st topic fetch y).response = []
  ∧ (papersRoute st topic fetch y).state.topicCache topic = some []
  ∧ (∀ (st' : ServerState) (fetch' : String → AdapterResults) (y' : Int),
       st'.topicCache topic = some [] →
       papersRoute st' topic fetch' y' = ⟨[], st', false⟩)
  ∧ (∀ (st' : ServerState) (t' : String) (fetch' : String → AdapterResults)
       (y' : Int), t' ≠ topic →
       (papersRoute st' t' fetch' y').state.topicCache topic =
         st'.topicCache topic) := by
  have hr : rankedPapers y (fetch topic) = [] := by
    simp [rankedPapers, hempty, trendRank, sortDesc]
  refine ⟨?_, ?_, ?_, ?_⟩
  · simp [papersRoute, hmiss, hr]
  · simp [papersRoute, hmiss, hr]
  · intro st' fetch' y' hhit
    simp [papersRoute, hhit]
  · intro st' t' fetch' y' hne
    cases h : st'.topicCache t' with
    | some cached => simp [papersRoute, h]
    | none =>
      simp only [papersRoute, h]
      exact if_neg (fun hh => hne hh.symm)

/-- Witness for `empty_aggregation_cached`: empty initial state, all
four adapters failing. -/
theorem empty_aggregation_cached_witness :
    (papersRoute ⟨[], fun _ => none⟩ "ml"
      (fun _ => ⟨.error "a", .error "b", .error "c", .error "d"⟩) 2024).response = []
  ∧ (papersRoute ⟨[], fun _ => none⟩ "ml"
      (fun _ => ⟨.error "a", .error "b", .error "c", .error "d"⟩) 2024).state.topicCache "ml" =
        some [] := by
  have h := empty_aggregation_cached ⟨[], fun _ => none⟩ "ml"
    (fun _ => ⟨.error "a", .error "b", .error "c", .error "d"⟩) 2024 rfl rfl
  exact ⟨h.1, h.2.1⟩

/-- A paper with a negative stored year, reachable through
`parseInt(...) || 0` on a malformed provider date. -/
def pNegYear : Paper := ⟨"odd paper", "text", "#", [], "X", -1, 0, []⟩

/-- C2, counterexample: the source guards the recency term with the
truthiness of `year` (`year !== 0`), not with `year > 0` as the claim
words it; at a paper with year `-1` the two formulas disagree. -/
theorem trendScore_guard_cex :
    trendScore 2025 pNegYear ≠ specTrendScore 2025 pNegYear := by
  simp only [trendScore, specTrendScore, pNegYear]
  norm_num [Real.log_one]

/-- C2, amended: the trending score is
`ln(citations + 1) + (year != 0 ? (currentYear - year) * -0.5 : 0)`:
a paper with the unknown-year sentinel `0` receives zero recency
penalty, the score is strictly decreasing in age (increasing in year)
for fixed citations over nonzero years, strictly increasing in citations
for a fixed year, and the trending sort orders every list descending by
this score. -/
theorem trendScore_rank_amended (y : Int) :
    (∀ p : Paper, p.year = 0 →
       trendScore y p = Real.log ((p.citations : ℝ) + 1))
  ∧ (∀ p q : Paper, p.citations = q.citations → p.year ≠ 0 → q.year ≠ 0 →
       p.year < q.year → trendScore y p < trendScore y q)
  ∧ (∀ p q : Paper, p.year = q.year → p.citations < q.citations →
       trendScore y p < trendScore y q)
  ∧ (∀ l : List Paper, (trendRank y l).Perm l
       ∧ (trendRank y l).Pairwise
           (fun a b => trendScore y b ≤ trendScore y a)) := by
  refine ⟨?_, ?_, ?_, fun l => ⟨sortDesc_perm _ l, sortDesc_sorted _ l⟩⟩
  · intro p hp
    simp [trendScore, hp]
  · intro p q hc hp hq hlt
    simp only [trendScore, hc, if_neg hp, if_neg hq]
    have hr : (p.year : ℝ) < (q.year : ℝ) := by exact_mod_cast hlt
    have hpen : ((y : ℝ) - (p.year : ℝ)) * (-0.5) <
        ((y : ℝ) - (q.year : ℝ)) * (-0.5) := by nlinarith
    exact add_lt_add_left hpen _
  · intro p q hy hc
    simp only [trendScore, hy]
    have hr : (p.citations : ℝ) < (q.citations : ℝ) := by exact_mod_cast hc
    have hlog : Real.log ((p.citations : ℝ) + 1) <
        Real.log ((q.citations : ℝ) + 1) :=
      Real.log_lt_log (by positivity) (by linarith)
    exact add_lt_add_right hlog _

/-- Papers instantiating the three monotonicity parts of
`trendScore_rank_amended` at concrete field values. -/
def pYearA : Paper := ⟨"a", "a", "#", [], "X", 2023, 7, []⟩

/-- Second concrete paper: same citations as `pYearA`, one year newer. -/
def pYearB : Paper := ⟨"b", "b", "#", [], "X", 2024, 7, []⟩

/-- Third concrete paper: same year as `pYearB`, more citations. -/
def pYearC : Paper := ⟨"c", "c", "#", [], "X", 2024, 9, []⟩

/-- Concrete paper with the unknown-year sentinel. -/
def pYearZ : Paper := ⟨"d", "d", "#", [], "X", 0, 3, []⟩

/-- Witness for `trendScore_rank_amended` at the concrete papers. -/
theorem trendScore_rank_amended_witness :
    trendScore 2025 pYearZ = Real.log ((3 : ℝ) + 1)
  ∧ trendScore 2025 pYearA < trendScore 2025 pYearB
  ∧ trendScore 2025 pYearB < trendScore 2025 pYearC := by
  have h := trendScore_rank_amended 2025
  refine ⟨?_, h.2.1 pYearA pYearB rfl (by decide) (by decide) (by decide),
    h.2.2.1 pYearB pYearC rfl (by decide)⟩
  have hz := h.1 pYearZ rfl
  simpa using hz

/-- C1: for an in-bounds index the `/related` route answers with the
clicked paper and the projected pipeline entries; every returned entry
has a corpus position different from the clicked one, a strictly
positive score equal to the similarity score of its position, and is the
paper stored at that position; at most five entries are returned; the
entries are ordered by score strictly descending with score ties broken
by ascending corpus position; and the self-entry of the score array is
forced to `-1`. -/
theorem related_click_props (corpus : List Paper) (sc : Nat → Rat) (i : Nat)
    (h : i < corpus.length) :
    relatedHandler corpus (some (i : Int)) sc =
      .ok (corpus.get ⟨i, h⟩,
        (relatedEntries corpus i sc).map ScoredEntry.paper)
  ∧ (∀ e ∈ relatedEntries corpus i sc,
       e.idx ≠ i ∧ 0 < e.score ∧ e.score = sc e.idx
         ∧ corpus[e.idx]? = some e.paper)
  ∧ (relatedEntries corpus i sc).length ≤ 5
  ∧ (relatedEntries corpus i sc).Pairwise
      (fun a b => b.score < a.score ∨ (a.score = b.score ∧ a.idx < b.idx))
  ∧ (∀ e ∈ relatedScores corpus i sc, e.idx = i → e.score = -1) := by
  have hcond : 0 ≤ (i : Int) ∧ ((i : Int)).toNat < corpus.length :=
    ⟨Int.natCast_nonneg i, by simpa using h⟩
  have hfilter : ∀ e ∈ relatedEntries corpus i sc,
      e ∈ (relatedScores corpus i sc).filter (fun s => decide (0 < s.score)) := by
    intro e he
    exact (mem_sortDesc _ e _).mp (List.mem_of_mem_take he)
  refine ⟨?_, ?_, ?_, ?_, ?_⟩
  · exact dif_pos hcond
  · intro e he
    obtain ⟨hmem, hposb⟩ := List.mem_filter.mp (hfilter e he)
    have hpos : 0 < e.score := of_decide_eq_true hposb
    obtain ⟨hget, hsc⟩ := mem_relatedScores corpus i sc e hmem
    have hne : e.idx ≠ i := by
      intro hh
      rw [if_pos hh] at hsc
      rw [hsc] at hpos
      norm_num at hpos
    exact ⟨hne, hpos, by rwa [if_neg hne] at hsc, hget⟩
  · simp only [relatedEntries]
    rw [List.length_take]
    exact min_le_left _ _
  · have hpw := (relatedScores_idx_pairwise corpus i sc).filter
      (fun s => decide (0 < s.score))
    have hs := sortDesc_stable ScoredEntry.score ScoredEntry.idx _ hpw
    exact hs.sublist (List.take_sublist 5 _)
  · intro e he hidx
    have hsc := (mem_relatedScores corpus i sc e he).2
    rwa [if_pos hidx] at hsc

/-- Concrete three-paper corpus for instantiating the `/related`
properties. -/
def corpusThree : List Paper :=
  [⟨"t0", "s0", "#", [], "X", 0, 0, []⟩,
   ⟨"t1", "s1", "#", [], "X", 0, 0, []⟩,
   ⟨"t2", "s2", "#", [], "X", 0, 0, []⟩]

/-- Concrete similarity scores for `corpusThree`. -/
def scThree : Nat → Rat := fun j => if j = 1 then 2 else 1

/-- Witness for `related_click_props` at the concrete corpus, clicking
index 0. -/
theorem related_click_props_witness :
    (relatedEntries corpusThree 0 scThree).length ≤ 5
  ∧ (∀ e ∈ relatedEntries corpusThree 0 scThree, e.idx ≠ 0 ∧ 0 < e.score) := by
  have h := related_click_props corpusThree scThree 0 (by decide)
  exact ⟨h.2.2.1, fun e he => ⟨(h.2.1 e he).1, (h.2.1 e he).2.1⟩⟩

/-- C6: the `/related` route fails exactly on an out-of-bounds index: a
missing or unparsable index parameter and any integer outside
`[0, corpusSize)` produce the structured 404, the boundary cases `-1`
and `corpusSize` included, and every in-bounds index produces a success
response. -/
theorem related_notFound_iff (corpus : List Paper) (sc : Nat → Rat) :
    (∀ i : Int, relatedHandler corpus (some i) sc = .error .notFound ↔
       (i < 0 ∨ (corpus.length : Int) ≤ i))
  ∧ relatedHandler corpus none sc = .error .notFound
  ∧ relatedHandler corpus (some (-1)) sc = .error .notFound
  ∧ relatedHandler corpus (some (corpus.length : Int)) sc = .error .notFound
  ∧ (∀ i : Int, 0 ≤ i → i < (corpus.length : Int) →
       ∃ r, relatedHandler corpus (some i) sc = .ok r) := by
  have hiff : ∀ i : Int, relatedHandler corpus (some i) sc = .error .notFound ↔
      (i < 0 ∨ (corpus.length : Int) ≤ i) := by
    intro i
    by_cases hc : i < 0 ∨ (corpus.length : Int) ≤ i
    · have hneg : ¬(0 ≤ i ∧ i.toNat < corpus.length) := by omega
      simp [relatedHandler, dif_neg hneg, hc]
    · have hpos : 0 ≤ i ∧ i.toNat < corpus.length := by omega
      simp [relatedHandler, dif_pos hpos, hc]
  refine ⟨hiff, rfl, (hiff (-1)).mpr (Or.inl (by norm_num)),
    (hiff _).mpr (Or.inr (le_refl _)), ?_⟩
  intro i h0 hlen
  have hpos : 0 ≤ i ∧ i.toNat < corpus.length := by omega
  exact ⟨(corpus.get ⟨i.toNat, hpos.2⟩,
    (relatedEntries corpus i.toNat sc).map ScoredEntry.paper), dif_pos hpos⟩

/-- Witness for `related_notFound_iff` on a one-paper corpus: both
boundary indices fail and the unique in-bounds index succeeds. -/
theorem related_notFound_iff_witness :
    relatedHandler [⟨"t", "s", "#", [], "X", 0, 0, []⟩] (some (-1))
        (fun _ => 1) = .error .notFound
  ∧ relatedHandler [⟨"t", "s", "#", [], "X", 0, 0, []⟩] (some 1)
        (fun _ => 1) = .error .notFound
  ∧ (∃ r, relatedHandler [⟨"t", "s", "#", [], "X", 0, 0, []⟩] (some 0)
        (fun _ => 1) = .ok r) := by
  have h := related_notFound_iff [⟨"t", "s", "#", [], "X", 0, 0, []⟩]
    (fun _ => 1)
  exact ⟨h.2.2.1, (h.1 1).mpr (Or.inr (by decide)),
    h.2.2.2.2 0 (by decide) (by decide)⟩

end Paperly
